import Mathlib

/-!
Verification of the HD44780 GPIO LCD driver (gpiolcd.c).

The driver is shallowly embedded: the mutable `struct hd44780_state` becomes
an explicit state record threaded through every operation, C `int` fields
become `Int`, and each call to `hd44780_output` / `hd44780_output4` (a byte
transmitted over the bus) becomes an event appended to an output trace.
Fixed `usleep` delays and the GPIO pin-level signalling are not modelled:
they carry no information relevant to the state machine or the byte traces.
The physical display's character memory is not part of the source; it is
carried as a ghost `disp` field (see its doc comment).
-/

namespace Gpiolcd

/-- Register select for a bus transfer: `enum reg_type` (HD_COMMAND / HD_DATA). -/
inductive RegType where
  | command
  | data
deriving DecidableEq, Repr

/-- One observable bus transfer: `out` is a full byte sent by `hd44780_output`
(two nibbles), `out4` is an upper-nibble-only write sent by `hd44780_output4`.
The payload is the transmitted byte. -/
inductive Ev where
  | out (t : RegType) (b : Int)
  | out4 (t : RegType) (b : Int)
deriving DecidableEq, Repr

/-- The semantic commands of the driver: `enum command` in gpiolcd.c. -/
inductive Command where
  | CMD_RESET
  | CMD_BKSP
  | CMD_CLR
  | CMD_NL
  | CMD_CR
  | CMD_HOME
  | CMD_TAB
  | CMD_FLASH
deriving DecidableEq, Repr

/-- `struct hd44780_state`, minus the GPIO handles and pin table (external
I/O resources with no bearing on the state machine).  All C `int` fields are
`Int`; the flag fields (`hd_blink`, `hd_cursor`, `hd_font`, `hd_bl_on`) keep
their C truthiness semantics (tested against 0).

`disp` is a ghost field.  Modelled from the spec: the physical display's
character cells (DDRAM contents) live in the LCD hardware, which is not part
of the source; following the spec's account of character writes, a data
transfer issued by `hd44780_putc` stores the character at the driver-tracked
(row, column) position, and the CLEAR command blanks every cell to the space
character. -/
structure Hd44780State where
  hd_ifwidth : Int
  hd_lines : Int
  hd_cols : Int
  hd_blink : Int
  hd_cursor : Int
  hd_font : Int
  hd_bl_on : Int
  hd_col : Int
  hd_row : Int
  disp : Int → Int → Int

/-- HD_CMD_CLEAR -/
def HD_CMD_CLEAR : Int := 0x01

/-- HD_CMD_HOME -/
def HD_CMD_HOME : Int := 0x02

/-- HD_CMD_ENTRYMODE -/
def HD_CMD_ENTRYMODE : Int := 0x04

/-- HD_ENTRY_INCR -/
def HD_ENTRY_INCR : Int := 0x02

/-- HD_CMD_DISPCTRL -/
def HD_CMD_DISPCTRL : Int := 0x08

/-- HD_DISP_ON -/
def HD_DISP_ON : Int := 0x04

/-- HD_CURSOR_ON -/
def HD_CURSOR_ON : Int := 0x02

/-- HD_BLINK_ON -/
def HD_BLINK_ON : Int := 0x01

/-- HD_CMD_MOVE -/
def HD_CMD_MOVE : Int := 0x10

/-- HD_MOVE_CURSOR -/
def HD_MOVE_CURSOR : Int := 0x00

/-- HD_MOVE_LEFT -/
def HD_MOVE_LEFT : Int := 0x00

/-- HD_CMD_SETMODE -/
def HD_CMD_SETMODE : Int := 0x20

/-- HD_MODE_8BIT_IF -/
def HD_MODE_8BIT_IF : Int := 0x10

/-- HD_MODE_2LINES -/
def HD_MODE_2LINES : Int := 0x08

/-- HD_MODE_LARGE_FONT -/
def HD_MODE_LARGE_FONT : Int := 0x04

/-- HD_CMD_SET_ADDR -/
def HD_CMD_SET_ADDR : Int := 0x80

/-- HD_LINE1_DRAM_OFFSET -/
def HD_LINE1_DRAM_OFFSET : Int := 0x40

/-- `hd44780_output(state, type, data)`: transmits one full byte (two nibble
strobes).  The C parameter is `uint8_t`, so the `int` argument at each call
site is reduced modulo 256 on entry (C unsigned conversion). -/
def hd44780_output (t : RegType) (b : Int) : Ev :=
  Ev.out t (b % 256)

/-- `hd44780_output4(state, type, data)`: upper-nibble-only transfer, used by
the 8-bit wake-up writes of the RESET sequence.  Same `uint8_t` reduction. -/
def hd44780_output4 (t : RegType) (b : Int) : Ev :=
  Ev.out4 t (b % 256)

/-- `hd44780_calc_addr`: DRAM address of the cursor.  The C local `addr` has
type `uint8_t`, so the initial assignment from `hd_col` and each `+=` wrap
modulo 256. -/
def hd44780_calc_addr (s : Hd44780State) : Int :=
  ((s.hd_col % 256
      + (if s.hd_row = 1 ∨ s.hd_row = 3 then HD_LINE1_DRAM_OFFSET else 0)) % 256
    + (if s.hd_row = 2 ∨ s.hd_row = 3 then s.hd_cols else 0)) % 256

/-- `hd44780_putc(state, c)`: clipped character write.  At the right edge
(`hd_col == hd_cols`) the character is dropped: no transfer, no state change.
Otherwise the byte goes out as DATA and the column advances; the ghost `disp`
records the character at the driver-tracked position. -/
def hd44780_putc (s : Hd44780State) (c : Int) : Hd44780State × List Ev :=
  if s.hd_col = s.hd_cols then
    (s, [])
  else
    ({ s with
        disp := fun r k => if r = s.hd_row ∧ k = s.hd_col then c else s.disp r k,
        hd_col := s.hd_col + 1 },
     [hd44780_output RegType.data c])

/-- The CMD_NL padding loop `while (hd_col < hd_cols) hd44780_putc(state, ' ')`,
with an explicit iteration bound.  The guard stops the loop exactly as the C
`while` does; the caller passes `(hd_cols - hd_col).toNat` iterations, which
is exactly enough because each guarded `putc` advances `hd_col` by one. -/
def hd44780_nl_pad : Nat → Hd44780State → Hd44780State × List Ev
  | 0, s => (s, [])
  | fuel + 1, s =>
    if s.hd_col < s.hd_cols then
      let p := hd44780_putc s 32
      let q := hd44780_nl_pad fuel p.1
      (q.1, p.2 ++ q.2)
    else
      (s, [])

/-- The CMD_TAB loop `while (i-- > 0) hd44780_putc(state, ' ')`: exactly `n`
unconditional space writes (`hd44780_putc` itself clips at the edge). -/
def hd44780_putc_times : Nat → Hd44780State → Hd44780State × List Ev
  | 0, s => (s, [])
  | n + 1, s =>
    let p := hd44780_putc s 32
    let q := hd44780_putc_times n p.1
    (q.1, p.2 ++ q.2)

/-- The display-control byte with the display turned on, as accumulated in
`val` (DISPCTRL | DISP_ON, plus cursor and blink when their flags are set). -/
def hd44780_dispctrl_on (s : Hd44780State) : Int :=
  Int.lor (Int.lor (Int.lor HD_CMD_DISPCTRL HD_DISP_ON)
      (if s.hd_cursor ≠ 0 then HD_CURSOR_ON else 0))
    (if s.hd_blink ≠ 0 then HD_BLINK_ON else 0)

/-- The byte trace of CMD_FLASH: the display-off / display-on pair, twice.
FLASH changes no state. -/
def hd44780_flash_events (s : Hd44780State) : List Ev :=
  [hd44780_output RegType.command HD_CMD_DISPCTRL,
   hd44780_output RegType.command (hd44780_dispctrl_on s),
   hd44780_output RegType.command HD_CMD_DISPCTRL,
   hd44780_output RegType.command (hd44780_dispctrl_on s)]

/-- The CMD_CLR body (also the tail of CMD_RESET via the C fallthrough):
transmit HD_CMD_CLEAR and reset the cursor to (0,0).  The ghost `disp` is
blanked to spaces, mirroring the device's reaction to the clear command
(Modelled from the spec: the DDRAM itself is hardware, not in the source). -/
def hd44780_clear (s : Hd44780State) : Hd44780State × List Ev :=
  ({ s with hd_col := 0, hd_row := 0, disp := fun _ _ => 32 },
   [hd44780_output RegType.command HD_CMD_CLEAR])

/-- The byte trace of the CMD_RESET case before it falls through into
CMD_CLR: three 8-bit-mode wake-up writes, the mode-switch write (upper
nibble first when the interface width is 4), the programmed mode byte, the
display-off then display-on control bytes, and the entry-mode byte. -/
def hd44780_reset_pre (s : Hd44780State) : List Ev :=
  [hd44780_output4 RegType.command (Int.lor HD_CMD_SETMODE HD_MODE_8BIT_IF),
   hd44780_output4 RegType.command (Int.lor HD_CMD_SETMODE HD_MODE_8BIT_IF),
   hd44780_output4 RegType.command (Int.lor HD_CMD_SETMODE HD_MODE_8BIT_IF)]
  ++ (let val : Int :=
        Int.lor (Int.lor (Int.lor HD_CMD_SETMODE
            (if s.hd_ifwidth = 8 then HD_MODE_8BIT_IF else 0))
          (if s.hd_lines ≠ 1 then HD_MODE_2LINES else 0))
          (if s.hd_font ≠ 0 then HD_MODE_LARGE_FONT else 0)
      (if s.hd_ifwidth = 4 then [hd44780_output4 RegType.command val] else [])
        ++ [hd44780_output RegType.command val])
  ++ [hd44780_output RegType.command HD_CMD_DISPCTRL,
      hd44780_output RegType.command (hd44780_dispctrl_on s),
      hd44780_output RegType.command (Int.lor HD_CMD_ENTRYMODE HD_ENTRY_INCR)]

/-- `hd44780_command(state, cmd)`: the command state machine.  Returns the
new state and the byte trace transmitted to the device. -/
def hd44780_command (s : Hd44780State) (cmd : Command) : Hd44780State × List Ev :=
  match cmd with
  | Command.CMD_RESET =>
    let p := hd44780_clear s
    (p.1, hd44780_reset_pre s ++ p.2)
  | Command.CMD_CLR => hd44780_clear s
  | Command.CMD_BKSP =>
    if 0 < s.hd_col then
      let s1 : Hd44780State := { s with hd_col := s.hd_col - 1 }
      let p := hd44780_putc s1 32
      ({ p.1 with hd_col := p.1.hd_col - 1 },
       hd44780_output RegType.command (Int.lor (Int.lor HD_CMD_MOVE HD_MOVE_CURSOR) HD_MOVE_LEFT)
         :: p.2
         ++ [hd44780_output RegType.command (Int.lor (Int.lor HD_CMD_MOVE HD_MOVE_CURSOR) HD_MOVE_LEFT)])
    else
      (s, hd44780_flash_events s)
  | Command.CMD_NL =>
    let p := hd44780_nl_pad (s.hd_cols - s.hd_col).toNat s
    if p.1.hd_row < p.1.hd_lines - 1 then
      let s2 : Hd44780State := { p.1 with hd_row := p.1.hd_row + 1, hd_col := 0 }
      (s2, p.2 ++ [hd44780_output RegType.command (Int.lor HD_CMD_SET_ADDR (hd44780_calc_addr s2))])
    else
      (p.1, p.2)
  | Command.CMD_CR =>
    let s1 : Hd44780State := { s with hd_col := 0 }
    (s1, [hd44780_output RegType.command (Int.lor HD_CMD_SET_ADDR (hd44780_calc_addr s1))])
  | Command.CMD_HOME =>
    ({ s with hd_col := 0, hd_row := 0 },
     [hd44780_output RegType.command HD_CMD_HOME])
  | Command.CMD_TAB =>
    let i0 : Int := 8 - Int.tmod s.hd_col 8
    let i : Int := if s.hd_col + i0 > s.hd_cols then s.hd_cols - s.hd_col else i0
    hd44780_putc_times i.toNat s
  | Command.CMD_FLASH => (s, hd44780_flash_events s)

/-- `do_char(state, ch)`: the escape-aware input interpreter.  The C `static
int esc` persists across calls; it is threaded explicitly as a `Bool`.
`isascii(ch) && isprint(ch)` on the signed `char` argument means `ch` is in
[0,127] and printable, i.e. 32 ≤ ch ≤ 126 in the C locale. -/
def do_char (s : Hd44780State) (esc : Bool) (ch : Int) :
    Hd44780State × Bool × List Ev :=
  if esc then
    if ch = 82 then
      let p := hd44780_command s Command.CMD_RESET
      (p.1, false, p.2)
    else if ch = 72 then
      let p := hd44780_command s Command.CMD_HOME
      (p.1, false, p.2)
    else
      (s, false, [])
  else if ch = 27 then
    (s, true, [])
  else if ch = 10 then
    let p := hd44780_command s Command.CMD_NL
    (p.1, false, p.2)
  else if ch = 13 then
    let p := hd44780_command s Command.CMD_CR
    (p.1, false, p.2)
  else if ch = 9 then
    let p := hd44780_command s Command.CMD_TAB
    (p.1, false, p.2)
  else if ch = 7 then
    let p := hd44780_command s Command.CMD_FLASH
    (p.1, false, p.2)
  else if ch = 8 then
    let p := hd44780_command s Command.CMD_BKSP
    (p.1, false, p.2)
  else if ch = 12 then
    let p := hd44780_command s Command.CMD_CLR
    (p.1, false, p.2)
  else if 32 ≤ ch ∧ ch ≤ 126 then
    let p := hd44780_putc s ch
    (p.1, false, p.2)
  else
    (s, false, [])

/-- The geometry validation in `main`: the two rejection tests on
`hd_lines` / `hd_cols` (lines 254-261), as the predicate "accepted". -/
def geometry_accepted (hd_lines hd_cols : Int) : Bool :=
  if hd_lines ≠ 1 ∧ hd_lines ≠ 2 ∧ hd_lines ≠ 4 then
    false
  else if hd_cols ≤ 0 ∨ 80 < hd_lines * hd_cols then
    false
  else
    true

/-- The cursor-range invariant from the data model: row in [0, line_count),
column in [0, column_count]. -/
def CursorInv (s : Hd44780State) : Prop :=
  0 ≤ s.hd_row ∧ s.hd_row < s.hd_lines ∧ 0 ≤ s.hd_col ∧ s.hd_col ≤ s.hd_cols

/-- A concrete 2-line, 16-column state, used for concrete evaluations. -/
def sampleState (row col : Int) : Hd44780State :=
  { hd_ifwidth := 4, hd_lines := 2, hd_cols := 16, hd_blink := 0, hd_cursor := 0,
    hd_font := 0, hd_bl_on := 1, hd_col := col, hd_row := row, disp := fun _ _ => 32 }

/-- A concrete 4-line, 20-column state, used for concrete evaluations. -/
def sampleState4 (row col : Int) : Hd44780State :=
  { hd_ifwidth := 4, hd_lines := 4, hd_cols := 20, hd_blink := 0, hd_cursor := 0,
    hd_font := 0, hd_bl_on := 1, hd_col := col, hd_row := row, disp := fun _ _ => 32 }

/-- A character write never changes the row. -/
@[simp] theorem hd44780_putc_hd_row (s : Hd44780State) (c : Int) :
    ((hd44780_putc s c).1).hd_row = s.hd_row := by
  unfold hd44780_putc; split <;> rfl

/-- A character write never changes the line count. -/
@[simp] theorem hd44780_putc_hd_lines (s : Hd44780State) (c : Int) :
    ((hd44780_putc s c).1).hd_lines = s.hd_lines := by
  unfold hd44780_putc; split <;> rfl

/-- A character write never changes the column count. -/
@[simp] theorem hd44780_putc_hd_cols (s : Hd44780State) (c : Int) :
    ((hd44780_putc s c).1).hd_cols = s.hd_cols := by
  unfold hd44780_putc; split <;> rfl

/-- At the right edge a character write is the identity with an empty trace. -/
theorem hd44780_putc_edge (s : Hd44780State) (c : Int) (h : s.hd_col = s.hd_cols) :
    hd44780_putc s c = (s, []) := by
  unfold hd44780_putc; rw [if_pos h]

/-- Away from the right edge a character write advances the column, emits the
byte as DATA and records the character in the ghost display. -/
theorem hd44780_putc_mid (s : Hd44780State) (c : Int) (h : s.hd_col ≠ s.hd_cols) :
    (hd44780_putc s c).1.hd_col = s.hd_col + 1 ∧
    (hd44780_putc s c).2 = [hd44780_output RegType.data c] ∧
    (hd44780_putc s c).1.disp =
      fun r k => if r = s.hd_row ∧ k = s.hd_col then c else s.disp r k := by
  unfold hd44780_putc; rw [if_neg h]; exact ⟨rfl, rfl, rfl⟩

/-- The NL padding loop with exactly enough fuel runs the cursor to the right
edge, preserves row and configuration, and emits one space per column. -/
theorem hd44780_nl_pad_spec (fuel : Nat) :
    ∀ s : Hd44780State, s.hd_col + fuel = s.hd_cols →
      (hd44780_nl_pad fuel s).1.hd_col = s.hd_cols ∧
      (hd44780_nl_pad fuel s).1.hd_row = s.hd_row ∧
      (hd44780_nl_pad fuel s).1.hd_lines = s.hd_lines ∧
      (hd44780_nl_pad fuel s).1.hd_cols = s.hd_cols ∧
      (hd44780_nl_pad fuel s).2 = List.replicate fuel (hd44780_output RegType.data 32) := by
  induction fuel with
  | zero =>
    intro s h
    simp [hd44780_nl_pad]
    omega
  | succ n ih =>
    intro s h
    have hlt : s.hd_col < s.hd_cols := by
      have : (0 : Int) ≤ (n : Int) := Int.ofNat_nonneg n
      push_cast at h
      omega
    have hne : s.hd_col ≠ s.hd_cols := ne_of_lt hlt
    have hput := hd44780_putc_mid s 32 hne
    have hrec := ih (hd44780_putc s 32).1 (by
      rw [hput.1, hd44780_putc_hd_cols]
      push_cast at h ⊢
      omega)
    simp only [hd44780_nl_pad, if_pos hlt]
    rw [hd44780_putc_hd_cols] at hrec
    refine ⟨hrec.1, ?_, ?_, hrec.2.2.2.1, ?_⟩
    · rw [hrec.2.1, hd44780_putc_hd_row]
    · rw [hrec.2.2.1, hd44780_putc_hd_lines]
    · rw [hput.2.1, hrec.2.2.2.2, List.replicate_succ]
      rfl

/-- The TAB loop run `n` times from at least `n` columns short of the edge
advances the column by exactly `n`, preserving row and configuration, and
emits `n` spaces. -/
theorem hd44780_putc_times_spec (n : Nat) :
    ∀ s : Hd44780State, s.hd_col + n ≤ s.hd_cols →
      (hd44780_putc_times n s).1.hd_col = s.hd_col + n ∧
      (hd44780_putc_times n s).1.hd_row = s.hd_row ∧
      (hd44780_putc_times n s).1.hd_lines = s.hd_lines ∧
      (hd44780_putc_times n s).1.hd_cols = s.hd_cols ∧
      (hd44780_putc_times n s).2 = List.replicate n (hd44780_output RegType.data 32) := by
  induction n with
  | zero =>
    intro s h
    simp [hd44780_putc_times]
  | succ n ih =>
    intro s h
    have hne : s.hd_col ≠ s.hd_cols := by
      have : (0 : Int) ≤ (n : Int) := Int.ofNat_nonneg n
      push_cast at h
      omega
    have hput := hd44780_putc_mid s 32 hne
    have hrec := ih (hd44780_putc s 32).1 (by
      rw [hput.1, hd44780_putc_hd_cols]
      push_cast at h ⊢
      omega)
    simp only [hd44780_putc_times]
    rw [hd44780_putc_hd_cols] at hrec
    refine ⟨?_, ?_, ?_, hrec.2.2.2.1, ?_⟩
    · rw [hrec.1, hput.1]
      push_cast
      omega
    · rw [hrec.2.1, hd44780_putc_hd_row]
    · rw [hrec.2.2.1, hd44780_putc_hd_lines]
    · rw [hput.2.1, hrec.2.2.2.2, List.replicate_succ]
      rfl

/-- Characterization of the geometry check: accepted exactly on the valid
(lines, columns) combinations. -/
theorem geometry_accepted_iff (l c : Int) :
    geometry_accepted l c = true ↔ (l = 1 ∨ l = 2 ∨ l = 4) ∧ 0 < c ∧ l * c ≤ 80 := by
  unfold geometry_accepted
  split
  · rename_i h
    simp only [Bool.false_eq_true, false_iff]
    intro hc
    rcases hc.1 with h1 | h1 | h1 <;> simp [h1] at h
  · rename_i h
    split
    · rename_i h2
      simp only [Bool.false_eq_true, false_iff]
      intro hc
      rcases h2 with h2 | h2 <;> omega
    · rename_i h2
      simp only [true_iff]
      push_neg at h h2
      exact ⟨by tauto, h2.1, h2.2⟩

/-- Closed form of `hd44780_calc_addr`: the row-dependent sum reduced once
modulo 256. -/
theorem hd44780_calc_addr_closed (s : Hd44780State) :
    hd44780_calc_addr s =
      (s.hd_col + (if s.hd_row = 1 ∨ s.hd_row = 3 then 64 else 0)
        + (if s.hd_row = 2 ∨ s.hd_row = 3 then s.hd_cols else 0)) % 256 := by
  unfold hd44780_calc_addr HD_LINE1_DRAM_OFFSET
  split <;> split <;> omega

/-- C1 counterexample: with row 0 and column 256 the function returns the
column reduced modulo 256 (the `uint8_t` return type), namely 0, not the
column itself. -/
theorem c1_calc_addr_counterexample :
    (sampleState 0 256).hd_row = 0 ∧ (sampleState 0 256).hd_col = 256 ∧
    hd44780_calc_addr (sampleState 0 256) = 0 ∧
    hd44780_calc_addr (sampleState 0 256) ≠ (sampleState 0 256).hd_col := by
  refine ⟨rfl, rfl, ?_, ?_⟩
  · decide
  · decide

/-- C1 (amended): `hd44780_calc_addr` returns the row-dependent sum of the
original claim reduced modulo 256, because the C function computes in and
returns `uint8_t`: `c % 256` for row 0, `(0x40+c) % 256` for row 1,
`(cols+c) % 256` for row 2, `(0x40+cols+c) % 256` for row 3. -/
theorem c1_calc_addr (s : Hd44780State) :
    (s.hd_row = 0 → hd44780_calc_addr s = s.hd_col % 256) ∧
    (s.hd_row = 1 → hd44780_calc_addr s = (0x40 + s.hd_col) % 256) ∧
    (s.hd_row = 2 → hd44780_calc_addr s = (s.hd_cols + s.hd_col) % 256) ∧
    (s.hd_row = 3 → hd44780_calc_addr s = (0x40 + s.hd_cols + s.hd_col) % 256) := by
  refine ⟨?_, ?_, ?_, ?_⟩ <;> intro h <;>
    rw [hd44780_calc_addr_closed] <;> simp [h] <;> ring_nf

/-- C1 witness: the amended statement evaluated on each row of a concrete
4-line, 20-column state at column 5. -/
theorem c1_calc_addr_witness :
    hd44780_calc_addr (sampleState4 0 5) = (sampleState4 0 5).hd_col % 256 ∧
    hd44780_calc_addr (sampleState4 1 5) = (0x40 + (sampleState4 1 5).hd_col) % 256 ∧
    hd44780_calc_addr (sampleState4 2 5)
      = ((sampleState4 2 5).hd_cols + (sampleState4 2 5).hd_col) % 256 ∧
    hd44780_calc_addr (sampleState4 3 5)
      = (0x40 + (sampleState4 3 5).hd_cols + (sampleState4 3 5).hd_col) % 256 :=
  ⟨(c1_calc_addr _).1 rfl, (c1_calc_addr _).2.1 rfl,
   (c1_calc_addr _).2.2.1 rfl, (c1_calc_addr _).2.2.2 rfl⟩

/-- C2: CLEAR and HOME reset the cursor to (0,0) from any prior state, and
RESET performs CLEAR as its final step (same final state, and its trace is
the reset preamble followed by the CLEAR trace), so RESET also ends at (0,0). -/
theorem c2_clear_home_reset_cursor (s : Hd44780State) :
    ((hd44780_command s Command.CMD_CLR).1.hd_row = 0 ∧
      (hd44780_command s Command.CMD_CLR).1.hd_col = 0) ∧
    ((hd44780_command s Command.CMD_HOME).1.hd_row = 0 ∧
      (hd44780_command s Command.CMD_HOME).1.hd_col = 0) ∧
    ((hd44780_command s Command.CMD_RESET).1 = (hd44780_command s Command.CMD_CLR).1 ∧
      (hd44780_command s Command.CMD_RESET).2
        = hd44780_reset_pre s ++ (hd44780_command s Command.CMD_CLR).2 ∧
      (hd44780_command s Command.CMD_RESET).1.hd_row = 0 ∧
      (hd44780_command s Command.CMD_RESET).1.hd_col = 0) :=
  ⟨⟨rfl, rfl⟩, ⟨rfl, rfl⟩, rfl, rfl, rfl, rfl⟩

/-- C6: a character write with the cursor at the configured column count is
a no-op: no byte is transmitted and the state (cursor and ghost display
contents included) is unchanged. -/
theorem c6_putc_at_edge_noop (s : Hd44780State) (c : Int) (h : s.hd_col = s.hd_cols) :
    hd44780_putc s c = (s, []) :=
  hd44780_putc_edge s c h

/-- C6 witness: dropping the character 65 at the right edge of a concrete
2x16 state. -/
theorem c6_putc_at_edge_noop_witness :
    hd44780_putc (sampleState 0 16) 65 = (sampleState 0 16, []) :=
  c6_putc_at_edge_noop (sampleState 0 16) 65 rfl

/-- C8: a (lines, columns) geometry passes the validation in `main` (which
runs before any hardware access) exactly when lines is 1, 2 or 4, columns is
positive, and lines x columns is at most 80. -/
theorem c8_geometry (l c : Int) :
    geometry_accepted l c = true ↔ (l = 1 ∨ l = 2 ∨ l = 4) ∧ 0 < c ∧ l * c ≤ 80 :=
  geometry_accepted_iff l c

/-- C8 witness: the default 2x16 geometry is accepted and a 3-line geometry
is rejected. -/
theorem c8_geometry_witness :
    geometry_accepted 2 16 = true ∧ geometry_accepted 3 16 ≠ true :=
  ⟨(c8_geometry 2 16).mpr (by norm_num),
   fun h => by have := ((c8_geometry 3 16).mp h).1; omega⟩

/-- `hd44780_calc_addr` depends only on the column, row and column count. -/
theorem hd44780_calc_addr_congr (s t : Hd44780State) (h1 : s.hd_col = t.hd_col)
    (h2 : s.hd_row = t.hd_row) (h3 : s.hd_cols = t.hd_cols) :
    hd44780_calc_addr s = hd44780_calc_addr t := by
  unfold hd44780_calc_addr
  rw [h1, h2, h3]

/-- C4: from any in-range column, TAB advances the cursor column to the next
multiple of 8, clamped at the configured column count, and leaves the row
unchanged. -/
theorem c4_tab (s : Hd44780State) (h1 : 0 ≤ s.hd_col) (h2 : s.hd_col ≤ s.hd_cols) :
    (hd44780_command s Command.CMD_TAB).1.hd_col
      = min s.hd_cols (s.hd_col + (8 - s.hd_col % 8)) ∧
    (hd44780_command s Command.CMD_TAB).1.hd_row = s.hd_row := by
  have htm : Int.tmod s.hd_col 8 = s.hd_col % 8 := Int.tmod_eq_emod h1 (by norm_num)
  have hm0 : 0 ≤ s.hd_col % 8 := Int.emod_nonneg _ (by norm_num)
  have hm8 : s.hd_col % 8 < 8 := Int.emod_lt_of_pos _ (by norm_num)
  simp only [hd44780_command, htm]
  split
  · rename_i hclamp
    have hn : ((s.hd_cols - s.hd_col).toNat : Int) = s.hd_cols - s.hd_col :=
      Int.toNat_of_nonneg (by omega)
    have hs := hd44780_putc_times_spec (s.hd_cols - s.hd_col).toNat s (by omega)
    refine ⟨?_, hs.2.1⟩
    rw [hs.1, hn, min_eq_left (by omega)]
    omega
  · rename_i hclamp
    have hpos : (0 : Int) ≤ 8 - s.hd_col % 8 := by omega
    have hn : (((8 : Int) - s.hd_col % 8).toNat : Int) = 8 - s.hd_col % 8 :=
      Int.toNat_of_nonneg hpos
    have hs := hd44780_putc_times_spec ((8 : Int) - s.hd_col % 8).toNat s (by omega)
    refine ⟨?_, hs.2.1⟩
    rw [hs.1, hn, min_eq_right (by omega)]

/-- C4 witness: TAB from column 3 of a 2x16 display stops at column 8 and
keeps the row. -/
theorem c4_tab_witness :
    (hd44780_command (sampleState 0 3) Command.CMD_TAB).1.hd_col
      = min (sampleState 0 3).hd_cols
          ((sampleState 0 3).hd_col + (8 - (sampleState 0 3).hd_col % 8)) ∧
    (hd44780_command (sampleState 0 3) Command.CMD_TAB).1.hd_row
      = (sampleState 0 3).hd_row :=
  c4_tab (sampleState 0 3) (by decide) (by decide)

/-- C3: NL pads the current row with spaces out to the configured column
count; below the last row it then advances the row, resets the column to 0
and transmits a set-address command for the new position; on the last row it
only pads, the cursor stays at (lines-1, columns), and a subsequent character
write is a no-op. -/
theorem c3_nl (s : Hd44780State) (_h1 : 0 ≤ s.hd_col) (h2 : s.hd_col ≤ s.hd_cols) :
    (s.hd_row < s.hd_lines - 1 →
      (hd44780_command s Command.CMD_NL).1.hd_row = s.hd_row + 1 ∧
      (hd44780_command s Command.CMD_NL).1.hd_col = 0 ∧
      (hd44780_command s Command.CMD_NL).2
        = List.replicate (s.hd_cols - s.hd_col).toNat (hd44780_output RegType.data 32)
          ++ [hd44780_output RegType.command
                (Int.lor HD_CMD_SET_ADDR
                  (hd44780_calc_addr { s with hd_row := s.hd_row + 1, hd_col := 0 }))]) ∧
    (s.hd_row = s.hd_lines - 1 →
      (hd44780_command s Command.CMD_NL).1.hd_row = s.hd_row ∧
      (hd44780_command s Command.CMD_NL).1.hd_col = s.hd_cols ∧
      (hd44780_command s Command.CMD_NL).2
        = List.replicate (s.hd_cols - s.hd_col).toNat (hd44780_output RegType.data 32) ∧
      ∀ c : Int, hd44780_putc (hd44780_command s Command.CMD_NL).1 c
        = ((hd44780_command s Command.CMD_NL).1, [])) := by
  have hn : ((s.hd_cols - s.hd_col).toNat : Int) = s.hd_cols - s.hd_col :=
    Int.toNat_of_nonneg (by omega)
  have hs := hd44780_nl_pad_spec (s.hd_cols - s.hd_col).toNat s (by omega)
  simp only [hd44780_command]
  constructor
  · intro hrow
    rw [if_pos (by rw [hs.2.1, hs.2.2.1]; exact hrow)]
    refine ⟨by simp [hs.2.1], rfl, ?_⟩
    rw [hs.2.2.2.2]
    have haddr : hd44780_calc_addr
        { hd44780_nl_pad (s.hd_cols - s.hd_col).toNat s |>.1 with
            hd_row := (hd44780_nl_pad (s.hd_cols - s.hd_col).toNat s).1.hd_row + 1,
            hd_col := 0 }
        = hd44780_calc_addr { s with hd_row := s.hd_row + 1, hd_col := 0 } := by
      apply hd44780_calc_addr_congr <;> simp [hs.2.1, hs.2.2.2.1]
    rw [haddr]
  · intro hrow
    rw [if_neg (by rw [hs.2.1, hs.2.2.1]; omega)]
    refine ⟨hs.2.1, hs.1, hs.2.2.2.2, ?_⟩
    intro c
    exact hd44780_putc_edge _ c (by rw [hs.1, hs.2.2.2.1])

/-- C3 witness: NL from (0,14) of a 2x16 display moves to (1,0) emitting two
space pads and a set-address command; NL from the last row (1,14) pads to
column 16 and pins the cursor, after which writing character 65 is a no-op. -/
theorem c3_nl_witness :
    ((hd44780_command (sampleState 0 14) Command.CMD_NL).1.hd_row
        = (sampleState 0 14).hd_row + 1 ∧
      (hd44780_command (sampleState 0 14) Command.CMD_NL).1.hd_col = 0 ∧
      (hd44780_command (sampleState 0 14) Command.CMD_NL).2
        = List.replicate ((sampleState 0 14).hd_cols - (sampleState 0 14).hd_col).toNat
            (hd44780_output RegType.data 32)
          ++ [hd44780_output RegType.command
                (Int.lor HD_CMD_SET_ADDR
                  (hd44780_calc_addr
                    { sampleState 0 14 with
                        hd_row := (sampleState 0 14).hd_row + 1, hd_col := 0 }))]) ∧
    ((hd44780_command (sampleState 1 14) Command.CMD_NL).1.hd_row
        = (sampleState 1 14).hd_row ∧
      (hd44780_command (sampleState 1 14) Command.CMD_NL).1.hd_col
        = (sampleState 1 14).hd_cols ∧
      (hd44780_command (sampleState 1 14) Command.CMD_NL).2
        = List.replicate ((sampleState 1 14).hd_cols - (sampleState 1 14).hd_col).toNat
            (hd44780_output RegType.data 32) ∧
      hd44780_putc (hd44780_command (sampleState 1 14) Command.CMD_NL).1 65
        = ((hd44780_command (sampleState 1 14) Command.CMD_NL).1, [])) := by
  have ha := (c3_nl (sampleState 0 14) (by decide) (by decide)).1 (by decide)
  have hb := (c3_nl (sampleState 1 14) (by decide) (by decide)).2 (by decide)
  exact ⟨ha, hb.1, hb.2.1, hb.2.2.1, hb.2.2.2 65⟩

/-- C5: from a column greater than 0 (within range), BKSP decrements the
column by exactly one, keeps the row, and leaves a space character in the
display cell at the prior column; from column 0, BKSP is identical to FLASH
(same state, same byte trace) and the column stays 0. -/
theorem c5_bksp (s : Hd44780State) :
    (0 < s.hd_col → s.hd_col ≤ s.hd_cols →
      (hd44780_command s Command.CMD_BKSP).1.hd_col = s.hd_col - 1 ∧
      (hd44780_command s Command.CMD_BKSP).1.hd_row = s.hd_row ∧
      (hd44780_command s Command.CMD_BKSP).1.disp s.hd_row (s.hd_col - 1) = 32) ∧
    (s.hd_col = 0 →
      hd44780_command s Command.CMD_BKSP = hd44780_command s Command.CMD_FLASH ∧
      (hd44780_command s Command.CMD_BKSP).1.hd_col = 0) := by
  constructor
  · intro hpos hle
    have hne : ({ s with hd_col := s.hd_col - 1 } : Hd44780State).hd_col
        ≠ ({ s with hd_col := s.hd_col - 1 } : Hd44780State).hd_cols := by
      simp
      omega
    have hp := hd44780_putc_mid { s with hd_col := s.hd_col - 1 } 32 hne
    simp only [hd44780_command]
    rw [if_pos hpos]
    refine ⟨?_, by simp, ?_⟩
    · simp [hp.1]
    · simp [hp.2.2]
  · intro h0
    simp only [hd44780_command]
    rw [if_neg (by omega)]
    exact ⟨rfl, h0⟩

/-- C5 witness: BKSP from (0,3) of a 2x16 state, and BKSP from column 0. -/
theorem c5_bksp_witness :
    ((hd44780_command (sampleState 0 3) Command.CMD_BKSP).1.hd_col
        = (sampleState 0 3).hd_col - 1 ∧
      (hd44780_command (sampleState 0 3) Command.CMD_BKSP).1.hd_row
        = (sampleState 0 3).hd_row ∧
      (hd44780_command (sampleState 0 3) Command.CMD_BKSP).1.disp
          (sampleState 0 3).hd_row ((sampleState 0 3).hd_col - 1) = 32) ∧
    (hd44780_command (sampleState 0 0) Command.CMD_BKSP
        = hd44780_command (sampleState 0 0) Command.CMD_FLASH ∧
      (hd44780_command (sampleState 0 0) Command.CMD_BKSP).1.hd_col = 0) :=
  ⟨(c5_bksp (sampleState 0 3)).1 (by decide) (by decide),
   (c5_bksp (sampleState 0 0)).2 (by decide)⟩

/-- C7: with escape pending, the character R triggers RESET and H triggers
HOME, any other character produces no command, and escape-pending clears in
all three cases; without escape pending, the escape byte 27 sets
escape-pending and emits nothing. -/
theorem c7_do_char (s : Hd44780State) (ch : Int) :
    (do_char s true 82
      = ((hd44780_command s Command.CMD_RESET).1, false,
          (hd44780_command s Command.CMD_RESET).2)) ∧
    (do_char s true 72
      = ((hd44780_command s Command.CMD_HOME).1, false,
          (hd44780_command s Command.CMD_HOME).2)) ∧
    (ch ≠ 82 → ch ≠ 72 → do_char s true ch = (s, false, [])) ∧
    (do_char s false 27 = (s, true, [])) := by
  refine ⟨?_, ?_, ?_, ?_⟩
  · simp [do_char]
  · simp [do_char]
  · intro hR hH
    simp [do_char, hR, hH]
  · simp [do_char]

/-- C7 witness: ESC-R, ESC-H, ESC followed by the ordinary character 65, and
a bare escape byte, evaluated on a concrete state. -/
theorem c7_do_char_witness :
    (do_char (sampleState 0 3) true 82
      = ((hd44780_command (sampleState 0 3) Command.CMD_RESET).1, false,
          (hd44780_command (sampleState 0 3) Command.CMD_RESET).2)) ∧
    (do_char (sampleState 0 3) true 72
      = ((hd44780_command (sampleState 0 3) Command.CMD_HOME).1, false,
          (hd44780_command (sampleState 0 3) Command.CMD_HOME).2)) ∧
    (do_char (sampleState 0 3) true 65 = (sampleState 0 3, false, [])) ∧
    (do_char (sampleState 0 3) false 27 = (sampleState 0 3, true, [])) :=
  ⟨(c7_do_char (sampleState 0 3) 65).1, (c7_do_char (sampleState 0 3) 65).2.1,
   (c7_do_char (sampleState 0 3) 65).2.2.1 (by decide) (by decide),
   (c7_do_char (sampleState 0 3) 65).2.2.2⟩

/-- C9: every command of the state machine and every character write
preserves the cursor-range invariant. -/
theorem c9_cursor_invariant (s : Hd44780State) (c : Int) (cmd : Command)
    (h1 : 0 ≤ s.hd_row) (h2 : s.hd_row < s.hd_lines)
    (h3 : 0 ≤ s.hd_col) (h4 : s.hd_col ≤ s.hd_cols) :
    CursorInv (hd44780_command s cmd).1 ∧ CursorInv (hd44780_putc s c).1 := by
  have hputc : CursorInv (hd44780_putc s c).1 := by
    by_cases he : s.hd_col = s.hd_cols
    · rw [hd44780_putc_edge s c he]
      exact ⟨h1, h2, h3, h4⟩
    · have hp := hd44780_putc_mid s c he
      refine ⟨?_, ?_, ?_, ?_⟩ <;> simp [hp.1] <;> omega
  refine ⟨?_, hputc⟩
  cases cmd with
  | CMD_RESET =>
    simp only [hd44780_command, hd44780_clear, CursorInv]
    refine ⟨?_, ?_, ?_, ?_⟩ <;> omega
  | CMD_CLR =>
    simp only [hd44780_command, hd44780_clear, CursorInv]
    refine ⟨?_, ?_, ?_, ?_⟩ <;> omega
  | CMD_HOME =>
    simp only [hd44780_command, CursorInv]
    refine ⟨?_, ?_, ?_, ?_⟩ <;> omega
  | CMD_CR =>
    simp only [hd44780_command, CursorInv]
    refine ⟨?_, ?_, ?_, ?_⟩ <;> omega
  | CMD_FLASH =>
    simp only [hd44780_command, CursorInv]
    exact ⟨h1, h2, h3, h4⟩
  | CMD_BKSP =>
    by_cases hpos : 0 < s.hd_col
    · have hne : ({ s with hd_col := s.hd_col - 1 } : Hd44780State).hd_col
          ≠ ({ s with hd_col := s.hd_col - 1 } : Hd44780State).hd_cols := by
        simp
        omega
      have hp := hd44780_putc_mid { s with hd_col := s.hd_col - 1 } 32 hne
      simp only [hd44780_command, CursorInv]
      rw [if_pos hpos]
      refine ⟨?_, ?_, ?_, ?_⟩ <;> simp [hp.1] <;> omega
    · simp only [hd44780_command, CursorInv]
      rw [if_neg hpos]
      exact ⟨h1, h2, h3, h4⟩
  | CMD_NL =>
    have hs := hd44780_nl_pad_spec (s.hd_cols - s.hd_col).toNat s (by omega)
    simp only [hd44780_command, CursorInv]
    split
    · rename_i hrow
      rw [hs.2.1, hs.2.2.1] at hrow
      refine ⟨?_, ?_, ?_, ?_⟩ <;> simp [hs.1, hs.2.1, hs.2.2.1, hs.2.2.2.1] <;> omega
    · rename_i hrow
      rw [hs.2.1, hs.2.2.1] at hrow
      refine ⟨?_, ?_, ?_, ?_⟩ <;> simp [hs.1, hs.2.1, hs.2.2.1, hs.2.2.2.1] <;> omega
  | CMD_TAB =>
    have htm : Int.tmod s.hd_col 8 = s.hd_col % 8 := Int.tmod_eq_emod h3 (by norm_num)
    have hm0 : 0 ≤ s.hd_col % 8 := Int.emod_nonneg _ (by norm_num)
    have hm8 : s.hd_col % 8 < 8 := Int.emod_lt_of_pos _ (by norm_num)
    simp only [hd44780_command, htm, CursorInv]
    split
    · have hs := hd44780_putc_times_spec (s.hd_cols - s.hd_col).toNat s (by omega)
      refine ⟨?_, ?_, ?_, ?_⟩ <;> simp [hs.1, hs.2.1, hs.2.2.1, hs.2.2.2.1] <;> omega
    · rename_i hcl
      have hs := hd44780_putc_times_spec ((8 : Int) - s.hd_col % 8).toNat s (by omega)
      refine ⟨?_, ?_, ?_, ?_⟩ <;> simp [hs.1, hs.2.1, hs.2.2.1, hs.2.2.2.1] <;> omega

/-- C9 witness: the invariant after NL and after writing character 65 from
the in-range state (0,3) of a 2x16 display. -/
theorem c9_cursor_invariant_witness :
    CursorInv (hd44780_command (sampleState 0 3) Command.CMD_NL).1 ∧
    CursorInv (hd44780_putc (sampleState 0 3) 65).1 :=
  c9_cursor_invariant (sampleState 0 3) 65 Command.CMD_NL
    (by decide) (by decide) (by decide) (by decide)

/-- Setting bit 7 by bitwise-or on a 7-bit value is plain addition. -/
theorem int_lor_128_of_lt (v : Int) (h0 : 0 ≤ v) (h1 : v < 128) :
    Int.lor 128 v = 128 + v := by
  obtain ⟨n, rfl⟩ := Int.eq_ofNat_of_zero_le h0
  have hn : n < 128 := by exact_mod_cast h1
  have hnat : 128 ||| n = 128 + n := by
    have hb : ∀ m : Nat, m < 128 → 128 ||| m = 128 + m := by decide
    exact hb n hn
  calc Int.lor 128 (Int.ofNat n) = Int.ofNat (128 ||| n) := rfl
    _ = Int.ofNat (128 + n) := by rw [hnat]
    _ = 128 + Int.ofNat n := by
        rw [Int.ofNat_eq_coe, Int.ofNat_eq_coe]
        push_cast
        ring

/-- C10: under an accepted geometry and an in-range cursor, the computed
DRAM address is nonnegative and strictly below 0x80, so or-ing in the
set-address command bit is plain addition of 0x80 and alters no address
bit. -/
theorem c10_addr_bound (s : Hd44780State)
    (hg : geometry_accepted s.hd_lines s.hd_cols = true)
    (h1 : 0 ≤ s.hd_row) (h2 : s.hd_row < s.hd_lines)
    (h3 : 0 ≤ s.hd_col) (h4 : s.hd_col ≤ s.hd_cols) :
    0 ≤ hd44780_calc_addr s ∧ hd44780_calc_addr s < 128 ∧
    Int.lor HD_CMD_SET_ADDR (hd44780_calc_addr s)
      = HD_CMD_SET_ADDR + hd44780_calc_addr s := by
  obtain ⟨hl, hc, hlc⟩ := (geometry_accepted_iff _ _).mp hg
  have hbound : 0 ≤ hd44780_calc_addr s ∧ hd44780_calc_addr s < 128 := by
    rw [hd44780_calc_addr_closed]
    rcases hl with hl | hl | hl <;> rw [hl] at hlc h2 <;> split <;> split <;> omega
  exact ⟨hbound.1, hbound.2, int_lor_128_of_lt _ hbound.1 hbound.2⟩

/-- C10 witness: the address bound and the or-is-addition fact at the
concrete accepted state (0,3) of a 2x16 display. -/
theorem c10_addr_bound_witness :
    0 ≤ hd44780_calc_addr (sampleState 0 3) ∧ hd44780_calc_addr (sampleState 0 3) < 128 ∧
    Int.lor HD_CMD_SET_ADDR (hd44780_calc_addr (sampleState 0 3))
      = HD_CMD_SET_ADDR + hd44780_calc_addr (sampleState 0 3) :=
  c10_addr_bound (sampleState 0 3) (by decide) (by decide) (by decide) (by decide) (by decide)

end Gpiolcd
